import Mathlib

/-!
Verification development for the responsive `StyleDirective` of the
flex-layout repository.  The parser `_buildStyleMap`, the intercepting
`cacheInput` adapter, the `styleBase` input setter, the constructor's
inline-style seeding and `_updateStyle` are shallow embeddings of the
TypeScript in `StyleDirective`.  Collaborators that live outside the
provided sources (`extendObject`, the `BaseFxDirectiveAdapter` cache
store, `ResponsiveActivation`) are modelled from the specification and
marked as such in their doc comments.
-/

namespace FlexLayout

/-- JavaScript `String.prototype.split` with a single-character
separator, on the underlying character list.  `"".split(c) = [""]`,
and every occurrence of the separator splits. -/
def splitCharList (c : Char) : List Char → List (List Char)
  | [] => [[]]
  | ch :: rest =>
    let r := splitCharList c rest
    if ch = c then [] :: r
    else
      match r with
      | [] => [[ch]]
      | g :: gs => (ch :: g) :: gs

/-- JavaScript `String.prototype.replace(c, r)` with single-character
pattern and replacement: only the FIRST occurrence is replaced. -/
def replaceFirstChar (c r : Char) : List Char → List Char
  | [] => []
  | ch :: rest => if ch = c then r :: rest else ch :: replaceFirstChar c r rest

/-- JavaScript `String.prototype.replace(c, "")` with a
single-character pattern: only the FIRST occurrence is removed. -/
def removeFirstChar (c : Char) : List Char → List Char
  | [] => []
  | ch :: rest => if ch = c then rest else ch :: removeFirstChar c rest

/-- JavaScript `String.prototype.trim` (whitespace stripped from both
ends). -/
def jsTrimList (l : List Char) : List Char :=
  ((l.dropWhile Char.isWhitespace).reverse.dropWhile Char.isWhitespace).reverse

/-- String-level wrapper for `splitCharList`. -/
def jsSplit (s : String) (c : Char) : List String :=
  (splitCharList c s.data).map String.mk

/-- String-level wrapper for `replaceFirstChar`. -/
def jsReplaceFirst (s : String) (c r : Char) : String :=
  String.mk (replaceFirstChar c r s.data)

/-- String-level wrapper for `removeFirstChar`. -/
def jsRemoveFirst (s : String) (c : Char) : String :=
  String.mk (removeFirstChar c s.data)

/-- String-level wrapper for `jsTrimList`. -/
def jsTrim (s : String) : String :=
  String.mk (jsTrimList s.data)

/-- The single-quote character `'` (written by code point to keep the
source free of quote literals). -/
def quoteChar : Char := Char.ofNat 39

/-- A JavaScript style-property object: an insertion-ordered list of
`key, value` pairs with (in all reachable states) distinct keys. -/
def StyleMap := List (String × String)

instance : DecidableEq StyleMap := by
  unfold StyleMap
  infer_instance

/-- `NgStyleType = string | string[] | Set<string> | ngStyleMap`, plus
`nil` for the JavaScript `null`/`undefined` that
`getAttribute("style")` can produce. -/
inductive NgStyleValue where
  | str (s : String)
  | arr (xs : List String)
  | set (xs : List String)
  | map (m : StyleMap)
  | nil
deriving DecidableEq

/-- JavaScript property read `m[k]`: the value at the first matching
key, or `undefined` (`none`). -/
def objGet {α : Type} : List (String × α) → String → Option α
  | [], _ => none
  | p :: rest, k => if p.1 = k then some p.2 else objGet rest k

/-- JavaScript property write `m[k] = v`: update the value in place if
the key exists (keeping its position), otherwise append. -/
def objSet {α : Type} : List (String × α) → String → α → List (String × α)
  | [], k, v => [(k, v)]
  | p :: rest, k, v => if p.1 = k then (k, v) :: rest else p :: objSet rest k v

/-- One fragment of the arrow passed to `.map` in `_buildStyleMap`:
`let [key, val] = it.split(":"); return val ?
[key.replace(quote, "").trim(), val.trim()] : null`.  The destructuring
takes the first two segments of the colon split, and a missing or
empty `val` yields `null` (here `none`). -/
def parseFragment (it : String) : Option (String × String) :=
  match jsSplit it ':' with
  | key :: val :: _ =>
    if val = "" then none
    else some (jsTrim (jsRemoveFirst key quoteChar), jsTrim val)
  | _ => none

/-- `StyleDirective._buildStyleMap`: a string is first subjected to
`replace(",", ";")` (first comma only, per JavaScript), split on `;`,
each fragment parsed, `null` results filtered out and the rest folded
into an object; any non-string input is returned unchanged. -/
def _buildStyleMap (styles : NgStyleValue) : NgStyleValue :=
  match styles with
  | .str value =>
    .map (((jsSplit (jsReplaceFirst value ',' ';') ';').filterMap parseFragment).foldl
      (fun map kv => objSet map kv.1 kv.2) [])
  | s => s

/-- Modelled from the spec: `extendObject` (utils/object-extend) is not
under src/.  Per §4.1 of the spec, merging starts from a shallow copy
of the base object and then overwrites it with every key of the
overlay, later keys winning. -/
def extendMap (base overlay : StyleMap) : StyleMap :=
  overlay.foldl (fun m kv => objSet m kv.1 kv.2) base

/-- Modelled from the spec: the merge step
`extendObject({}, inputMap[style], styles)` of the intercepting
`cacheInput` — `extendObject` is not under src/.  Per §4.1, a map is
merged onto the base map when one is cached; arrays and sets are
pass-through with their type preserved; a `null` input contributes
nothing, leaving a copy of the base map (or an empty map). -/
def mergeOntoBase (base : Option NgStyleValue) (styles : NgStyleValue) : NgStyleValue :=
  match styles with
  | .map m =>
    match base with
    | some (.map b) => .map (extendMap b m)
    | _ => .map m
  | .nil =>
    match base with
    | some (.map b) => .map b
    | _ => .map []
  | other => other

/-- Per-instance state: the `BaseFxDirectiveAdapter._inputMap` cache
(keys `style`, `styleXs`, `styleGtMd`, ...) and the `ngStyle` field of
the underlying `NgStyle` directive. -/
structure DirectiveState where
  inputMap : List (String × NgStyleValue)
  ngStyle : NgStyleValue

/-- The intercepting `cacheInput` installed by
`StyleDirective._buildAdapter`: the source is converted with
`_buildStyleMap`, merged (when `merge` is set, its default) onto the
currently cached base map `inputMap[style]`, and stored under `key`.
The underlying store `BaseFxDirectiveAdapter.cacheInput` is not under
src/ and is modelled from the spec (§4.2): it stores the result keyed
by suffix, replacing any earlier entry. -/
def adapterCacheInput (st : DirectiveState) (key : String) (source : NgStyleValue)
    (merge : Bool) : DirectiveState :=
  let styles := _buildStyleMap source
  let styles := if merge then mergeOntoBase (objGet st.inputMap "style") styles else styles
  { st with inputMap := objSet st.inputMap key styles }

/-- The `ngStyle` / `styleBase` input setter: caches the value under
the base key and copies the cached base entry into `ngStyle`. -/
def styleBase (st : DirectiveState) (val : NgStyleValue) : DirectiveState :=
  let st' := adapterCacheInput st "style" val true
  { st' with ngStyle := (objGet st'.inputMap "style").getD .nil }

/-- The tail of the `StyleDirective` constructor: after the adapter is
built (empty cache), the host element's inline `style` attribute (or
JavaScript `null` when absent) is cached as the base input. -/
def constructorSeed (attr : Option String) : DirectiveState :=
  adapterCacheInput { inputMap := [], ngStyle := .nil } "style"
    (match attr with | some s => .str s | none => .nil) true

/-- A breakpoint as the directive sees it: its registry suffix (for
example `Xs` or `GtMd`) and whether its media query currently
matches. -/
structure BreakPoint where
  suffix : String
  isMatch : Bool
deriving DecidableEq

/-- Modelled from the spec: `ResponsiveActivation.activatedInput`
(`BaseFxDirectiveAdapter.mqActivation`) is not under src/.  Per §4.2
and §9 of the spec, resolution picks the most specific currently
matching breakpoint for which a cached input exists — breakpoints are
in registration order and later registrations are more specific, so
this is the highest-index matching entry with a cached value — and
falls back to the cached base map (empty if none) otherwise. -/
def activatedInput (bps : List BreakPoint) (inputMap : List (String × NgStyleValue)) :
    NgStyleValue :=
  match bps.reverse.findSome?
      (fun bp => if bp.isMatch then objGet inputMap ("style" ++ bp.suffix) else none) with
  | some v => v
  | none => (objGet inputMap "style").getD (.map [])

/-- JavaScript truthiness on the values `_updateStyle` handles: the
empty string, `null` and `undefined` are falsy; every object is
truthy. -/
def isTruthy : NgStyleValue → Bool
  | .str s => s ≠ ""
  | .nil => false
  | _ => true

/-- `StyleDirective._updateStyle`: starts from
`value || queryInput("style") || ""` and, when an `mqActivation`
adapter exists, replaces it with the activated input; the result is
assigned to `ngStyle`. -/
def _updateStyle (bps : List BreakPoint) (mqActivation : Bool)
    (value : Option NgStyleValue) (st : DirectiveState) : DirectiveState :=
  let fromCache :=
    match objGet st.inputMap "style" with
    | some v => if isTruthy v then v else .str ""
    | none => .str ""
  let style :=
    match value with
    | some v => if isTruthy v then v else fromCache
    | none => fromCache
  let style := if mqActivation then activatedInput bps st.inputMap else style
  { st with ngStyle := style }

/-! Helper lemmas about the JavaScript-style primitives. -/

theorem objGet_objSet {α : Type} (m : List (String × α)) (k k' : String) (v : α) :
    objGet (objSet m k v) k' = if k' = k then some v else objGet m k' := by
  induction m with
  | nil =>
    rcases eq_or_ne k' k with rfl | h
    · simp [objSet, objGet]
    · simp [objSet, objGet, h, Ne.symm h]
  | cons p rest ih =>
    by_cases hp : p.1 = k
    · rcases eq_or_ne k' k with rfl | h
      · simp [objSet, objGet, hp]
      · simp [objSet, objGet, hp, h, Ne.symm h]
    · rcases eq_or_ne k' k with rfl | h
      · have hpk : ¬ p.1 = k' := hp
        simp [objSet, objGet, hp, hpk, ih]
      · by_cases hpk : p.1 = k'
        · simp [objSet, objGet, hp, hpk, h]
        · simp [objSet, objGet, hp, hpk, h, ih]

theorem objGet_eq_none_of_not_mem {α : Type} (m : List (String × α)) (k : String)
    (h : k ∉ m.map Prod.fst) : objGet m k = none := by
  induction m with
  | nil => rfl
  | cons p rest ih =>
    have h1 : ¬ p.1 = k := by
      intro hk
      exact h (by simp [hk])
    have h2 : k ∉ rest.map Prod.fst := by
      intro hk
      exact h (by simp [hk])
    simp [objGet, h1, ih h2]

theorem mem_map_fst_objSet {α : Type} (m : List (String × α)) (k x : String) (v : α)
    (h : x ∈ (objSet m k v).map Prod.fst) : x = k ∨ x ∈ m.map Prod.fst := by
  induction m with
  | nil =>
    simp [objSet] at h
    exact Or.inl h
  | cons p rest ih =>
    by_cases hp : p.1 = k
    · have h' : x = k ∨ x ∈ rest.map Prod.fst := by
        simpa [objSet, hp] using h
      rcases h' with h' | h'
      · exact Or.inl h'
      · exact Or.inr (by simp [h'])
    · have h' : x = p.1 ∨ x ∈ (objSet rest k v).map Prod.fst := by
        simpa [objSet, hp] using h
      rcases h' with h' | h'
      · exact Or.inr (by simp [h'])
      · rcases ih h' with h'' | h''
        · exact Or.inl h''
        · exact Or.inr (by simp [h''])

theorem nodup_map_fst_objSet {α : Type} (m : List (String × α)) (k : String) (v : α)
    (h : (m.map Prod.fst).Nodup) : ((objSet m k v).map Prod.fst).Nodup := by
  induction m with
  | nil => simp [objSet]
  | cons p rest ih =>
    simp only [List.map_cons, List.nodup_cons] at h
    by_cases hp : p.1 = k
    · have : (objSet (p :: rest) k v).map Prod.fst = k :: rest.map Prod.fst := by
        simp [objSet, hp]
      rw [this]
      exact List.nodup_cons.mpr ⟨hp ▸ h.1, h.2⟩
    · have : (objSet (p :: rest) k v).map Prod.fst = p.1 :: (objSet rest k v).map Prod.fst := by
        simp [objSet, hp]
      rw [this]
      refine List.nodup_cons.mpr ⟨fun hmem => ?_, ih h.2⟩
      rcases mem_map_fst_objSet rest k p.1 v hmem with h' | h'
      · exact hp h'
      · exact h.1 h'

theorem objGet_extendMap (b m : StyleMap) (k : String)
    (h : (m.map Prod.fst).Nodup) :
    objGet (extendMap b m) k =
      match objGet m k with
      | some v => some v
      | none => objGet b k := by
  induction m generalizing b with
  | nil => simp [extendMap, objGet]
  | cons p rest ih =>
    simp only [List.map_cons, List.nodup_cons] at h
    have step : extendMap b (p :: rest) = extendMap (objSet b p.1 p.2) rest := rfl
    rw [step, ih _ h.2]
    by_cases hk : p.1 = k
    · have hnone : objGet rest k = none :=
        objGet_eq_none_of_not_mem rest k (hk ▸ h.1)
      simp [objGet, hk, hnone, objGet_objSet]
    · have : ¬ k = p.1 := fun h' => hk h'.symm
      cases hrest : objGet rest k <;> simp [objGet, hk, hrest, objGet_objSet, this]

theorem findSome?_append {α β : Type} (l₁ l₂ : List α) (f : α → Option β) :
    (l₁ ++ l₂).findSome? f =
      match l₁.findSome? f with
      | some v => some v
      | none => l₂.findSome? f := by
  induction l₁ with
  | nil => simp [List.findSome?]
  | cons x l ih =>
    cases hx : f x <;> simp [List.findSome?_cons, hx, ih]

theorem findSome?_eq_none_of_all {α β : Type} (l : List α) (f : α → Option β)
    (h : ∀ x ∈ l, f x = none) : l.findSome? f = none := by
  induction l with
  | nil => rfl
  | cons x l ih =>
    have hx := h x (List.mem_cons_self x l)
    simp [List.findSome?_cons, hx, ih (fun y hy => h y (List.mem_cons_of_mem x hy))]

theorem splitCharList_ne_nil (c : Char) (l : List Char) : splitCharList c l ≠ [] := by
  cases l with
  | nil => simp [splitCharList]
  | cons ch rest =>
    by_cases h : ch = c
    · simp [splitCharList, h]
    · simp only [splitCharList, if_neg h]
      cases hr : splitCharList c rest <;> simp

theorem splitCharList_append (c : Char) (l₁ l₂ : List Char) :
    splitCharList c (l₁ ++ c :: l₂) = splitCharList c l₁ ++ splitCharList c l₂ := by
  induction l₁ with
  | nil => simp [splitCharList]
  | cons ch rest ih =>
    by_cases h : ch = c
    · simp [splitCharList, h, ih]
    · obtain ⟨g, gs, hr⟩ : ∃ g gs, splitCharList c rest = g :: gs := by
        cases hsp : splitCharList c rest with
        | nil => exact absurd hsp (splitCharList_ne_nil c rest)
        | cons a as => exact ⟨a, as, rfl⟩
      simp [splitCharList, h, ih, hr]

theorem splitCharList_of_not_mem (c : Char) (l : List Char) (h : c ∉ l) :
    splitCharList c l = [l] := by
  induction l with
  | nil => rfl
  | cons ch rest ih =>
    simp only [List.mem_cons] at h
    push_neg at h
    have hch : ¬ ch = c := Ne.symm h.1
    simp [splitCharList, hch, ih h.2]

theorem replaceFirstChar_of_not_mem (c r : Char) (l : List Char) (h : c ∉ l) :
    replaceFirstChar c r l = l := by
  induction l with
  | nil => rfl
  | cons ch rest ih =>
    simp only [List.mem_cons] at h
    push_neg at h
    have hch : ¬ ch = c := Ne.symm h.1
    simp [replaceFirstChar, hch, ih h.2]

theorem replaceFirstChar_append_of_not_mem (c r : Char) (l₁ l₂ : List Char)
    (h : c ∉ l₂) :
    replaceFirstChar c r (l₁ ++ l₂) = replaceFirstChar c r l₁ ++ l₂ := by
  induction l₁ with
  | nil => simp [replaceFirstChar, replaceFirstChar_of_not_mem c r l₂ h]
  | cons ch rest ih =>
    by_cases hch : ch = c <;> simp [replaceFirstChar, hch, ih]

theorem map_replace_of_not_mem (c r : Char) (l : List Char) (h : c ∉ l) :
    l.map (fun x => if x = c then r else x) = l := by
  induction l with
  | nil => rfl
  | cons x rest ih =>
    simp only [List.mem_cons] at h
    push_neg at h
    have hx : ¬ x = c := fun h' => h.1 h'.symm
    simp [hx, ih h.2]

theorem replaceFirstChar_eq_map_of_count_le_one (c r : Char) (l : List Char)
    (h : l.count c ≤ 1) :
    replaceFirstChar c r l = l.map (fun x => if x = c then r else x) := by
  induction l with
  | nil => rfl
  | cons ch rest ih =>
    rw [List.count_cons] at h
    by_cases hch : ch = c
    · have hz : rest.count c = 0 := by
        simp [hch] at h
        omega
      have hnot : c ∉ rest := List.count_eq_zero.mp hz
      simp [replaceFirstChar, hch, map_replace_of_not_mem c r rest hnot]
    · have hne : ¬ (c == ch) = true := by
        simp
        exact fun h' => hch h'.symm
      have hrest : rest.count c ≤ 1 := by
        simp [hne] at h
        omega
      simp [replaceFirstChar, hch, ih hrest]

/-! Lemmas about the fragment parser and the style-map builder. -/

theorem mk_ne_empty_of_ne_nil (l : List Char) (h : l ≠ []) : String.mk l ≠ "" := by
  intro hc
  exact h (by simpa using congrArg String.data hc)

theorem parseFragment_single (a v : List Char)
    (ha : ':' ∉ a) (hv : ':' ∉ v) (hne : v ≠ []) :
    parseFragment (String.mk (a ++ ':' :: v)) =
      some (jsTrim (String.mk (removeFirstChar quoteChar a)), jsTrim (String.mk v)) := by
  have hdata : (String.mk (a ++ ':' :: v)).data = a ++ ':' :: v := rfl
  have hsplit : splitCharList ':' (a ++ ':' :: v) = [a, v] := by
    rw [splitCharList_append, splitCharList_of_not_mem _ _ ha,
      splitCharList_of_not_mem _ _ hv]
    rfl
  unfold parseFragment jsSplit
  rw [hdata, hsplit]
  simp [mk_ne_empty_of_ne_nil v hne, jsRemoveFirst, jsTrim]

theorem parseFragment_two_colons (a b cs : List Char)
    (ha : ':' ∉ a) (hb : ':' ∉ b) (hne : b ≠ []) :
    parseFragment (String.mk (a ++ ':' :: (b ++ ':' :: cs))) =
      some (jsTrim (String.mk (removeFirstChar quoteChar a)), jsTrim (String.mk b)) := by
  have hdata : (String.mk (a ++ ':' :: (b ++ ':' :: cs))).data = a ++ ':' :: (b ++ ':' :: cs) :=
    rfl
  have hsplit : splitCharList ':' (a ++ ':' :: (b ++ ':' :: cs)) =
      a :: b :: splitCharList ':' cs := by
    rw [splitCharList_append, splitCharList_of_not_mem _ _ ha,
      splitCharList_append, splitCharList_of_not_mem _ _ hb]
    rfl
  unfold parseFragment jsSplit
  rw [hdata, hsplit]
  simp [mk_ne_empty_of_ne_nil b hne, jsRemoveFirst, jsTrim]

theorem buildStyleMap_append_dropped (s frag : String)
    (h1 : ';' ∉ frag.data) (h2 : ',' ∉ frag.data)
    (h3 : parseFragment frag = none) :
    _buildStyleMap (.str (s ++ ";" ++ frag)) = _buildStyleMap (.str s) := by
  have hdata : (s ++ ";" ++ frag).data = s.data ++ ';' :: frag.data := by
    show (s.data ++ [';']) ++ frag.data = s.data ++ ';' :: frag.data
    simp
  have hnotl : ',' ∉ (';' :: frag.data) := by
    simp only [List.mem_cons]
    push_neg
    exact ⟨by decide, h2⟩
  have hrep : (jsReplaceFirst (s ++ ";" ++ frag) ',' ';').data =
      (jsReplaceFirst s ',' ';').data ++ ';' :: frag.data := by
    show replaceFirstChar ',' ';' ((s ++ ";" ++ frag).data) =
      replaceFirstChar ',' ';' s.data ++ ';' :: frag.data
    rw [hdata]
    exact replaceFirstChar_append_of_not_mem ',' ';' s.data (';' :: frag.data) hnotl
  have hsplit : jsSplit (jsReplaceFirst (s ++ ";" ++ frag) ',' ';') ';' =
      jsSplit (jsReplaceFirst s ',' ';') ';' ++ [frag] := by
    unfold jsSplit
    rw [hrep, splitCharList_append, splitCharList_of_not_mem _ _ h1]
    simp
  simp only [_buildStyleMap]
  rw [hsplit, List.filterMap_append]
  simp [h3]

theorem buildStyleMap_single_decl (a v : List Char)
    (hca : ',' ∉ a) (hcv : ',' ∉ v)
    (hsa : ';' ∉ a) (hsv : ';' ∉ v)
    (ha : ':' ∉ a) (hv : ':' ∉ v) (hne : v ≠ []) :
    _buildStyleMap (.str (String.mk (a ++ ':' :: v))) =
      .map [(jsTrim (String.mk (removeFirstChar quoteChar a)), jsTrim (String.mk v))] := by
  have hl : (String.mk (a ++ ':' :: v)).data = a ++ ':' :: v := rfl
  have hnc : ',' ∉ a ++ ':' :: v := by
    simp only [List.mem_append, List.mem_cons]
    push_neg
    exact ⟨hca, by decide, hcv⟩
  have hns : ';' ∉ a ++ ':' :: v := by
    simp only [List.mem_append, List.mem_cons]
    push_neg
    exact ⟨hsa, by decide, hsv⟩
  have hrep : jsReplaceFirst (String.mk (a ++ ':' :: v)) ',' ';' =
      String.mk (a ++ ':' :: v) := by
    unfold jsReplaceFirst
    rw [hl, replaceFirstChar_of_not_mem _ _ _ hnc]
  have hsplit : jsSplit (String.mk (a ++ ':' :: v)) ';' = [String.mk (a ++ ':' :: v)] := by
    unfold jsSplit
    rw [hl, splitCharList_of_not_mem _ _ hns]
    rfl
  simp only [_buildStyleMap]
  rw [hrep, hsplit]
  simp [parseFragment_single a v ha hv hne, objSet]

/-! Lemmas about the spec-modelled activation resolution. -/

theorem activatedInput_most_specific (l₁ l₂ : List BreakPoint) (bp : BreakPoint)
    (inputMap : List (String × NgStyleValue)) (v : NgStyleValue)
    (hm : bp.isMatch = true)
    (hc : objGet inputMap ("style" ++ bp.suffix) = some v)
    (hafter : ∀ b ∈ l₂, b.isMatch = true → objGet inputMap ("style" ++ b.suffix) = none) :
    activatedInput (l₁ ++ bp :: l₂) inputMap = v := by
  unfold activatedInput
  have hnone : l₂.reverse.findSome?
      (fun b => if b.isMatch then objGet inputMap ("style" ++ b.suffix) else none) = none := by
    apply findSome?_eq_none_of_all
    intro b hb
    rcases List.mem_reverse.mp hb with hb'
    cases hbm : b.isMatch with
    | true => simp [hbm, hafter b hb' hbm]
    | false => simp [hbm]
  rw [List.reverse_append, List.reverse_cons]
  rw [List.append_assoc, findSome?_append, hnone]
  simp [List.findSome?_cons, hm, hc]

theorem activatedInput_fallback (bps : List BreakPoint)
    (inputMap : List (String × NgStyleValue)) (b : NgStyleValue)
    (h : ∀ x ∈ bps, x.isMatch = true → objGet inputMap ("style" ++ x.suffix) = none)
    (hb : objGet inputMap "style" = some b) :
    activatedInput bps inputMap = b := by
  unfold activatedInput
  have hnone : bps.reverse.findSome?
      (fun x => if x.isMatch then objGet inputMap ("style" ++ x.suffix) else none) = none := by
    apply findSome?_eq_none_of_all
    intro x hx
    rcases List.mem_reverse.mp hx with hx'
    cases hxm : x.isMatch with
    | true => simp [hxm, h x hx' hxm]
    | false => simp [hxm]
  rw [hnone]
  simp [hb]

theorem updateStyle_ngStyle_mq (bps : List BreakPoint) (st : DirectiveState) :
    (_updateStyle bps true none st).ngStyle = activatedInput bps st.inputMap := rfl

/-! Claim theorems. -/

/-- C1: Activation fallback — whenever a viewport-change event is
handled (`_updateStyle` with the `mqActivation` adapter present), the
resolved style is the cached map of the most specific
currently-matching breakpoint that has a cached input; and when no
matching breakpoint has a cached input, the resolved style is the
cached base map. -/
theorem activation_fallback_resolved_style
    (l₁ l₂ : List BreakPoint) (bp : BreakPoint) (st : DirectiveState) (v : NgStyleValue)
    (hm : bp.isMatch = true)
    (hc : objGet st.inputMap ("style" ++ bp.suffix) = some v)
    (hafter : ∀ b ∈ l₂, b.isMatch = true → objGet st.inputMap ("style" ++ b.suffix) = none) :
    (_updateStyle (l₁ ++ bp :: l₂) true none st).ngStyle = v
    ∧ ∀ (bps : List BreakPoint) (st' : DirectiveState) (b : NgStyleValue),
        (∀ x ∈ bps, x.isMatch = true → objGet st'.inputMap ("style" ++ x.suffix) = none) →
        objGet st'.inputMap "style" = some b →
        (_updateStyle bps true none st').ngStyle = b := by
  constructor
  · rw [updateStyle_ngStyle_mq]
    exact activatedInput_most_specific l₁ l₂ bp st.inputMap v hm hc hafter
  · intro bps st' b hall hb
    rw [updateStyle_ngStyle_mq]
    exact activatedInput_fallback bps st'.inputMap b hall hb

/-- Witness for C1: breakpoints `[Xs (matching), GtMd (not matching)]`
with base `a:1` and xs `x:2` cached resolve to the xs map; with no
breakpoint matching they resolve to the base map. -/
theorem activation_fallback_resolved_style_witness :
    (_updateStyle [⟨"Xs", true⟩, ⟨"GtMd", false⟩] true none
        (adapterCacheInput (styleBase ⟨[], .nil⟩ (.str "a:1")) "styleXs" (.str "x:2") true)).ngStyle
      = .map [("a","1"),("x","2")]
    ∧ (_updateStyle [⟨"Xs", false⟩, ⟨"GtMd", false⟩] true none
        (adapterCacheInput (styleBase ⟨[], .nil⟩ (.str "a:1")) "styleXs" (.str "x:2") true)).ngStyle
      = .map [("a","1")] := by
  constructor
  · exact (activation_fallback_resolved_style [] [⟨"GtMd", false⟩] ⟨"Xs", true⟩
      (adapterCacheInput (styleBase ⟨[], .nil⟩ (.str "a:1")) "styleXs" (.str "x:2") true)
      (.map [("a","1"),("x","2")]) rfl (by decide) (by decide)).1
  · exact (activation_fallback_resolved_style [] [⟨"GtMd", false⟩] ⟨"Xs", true⟩
      (adapterCacheInput (styleBase ⟨[], .nil⟩ (.str "a:1")) "styleXs" (.str "x:2") true)
      (.map [("a","1"),("x","2")]) rfl (by decide) (by decide)).2
      [⟨"Xs", false⟩, ⟨"GtMd", false⟩]
      (adapterCacheInput (styleBase ⟨[], .nil⟩ (.str "a:1")) "styleXs" (.str "x:2") true)
      (.map [("a","1")]) (by decide) (by decide)

/-- C2: First-write-merge quirk — caching an input for a breakpoint
suffix merges it against the base map as it exists at that moment, and
a later base `cacheInput` leaves every already-cached
breakpoint-suffix entry unchanged. -/
theorem first_write_merge_quirk (st : DirectiveState) (baseVal source : NgStyleValue)
    (key : String) (hk : key ≠ "style") :
    objGet (adapterCacheInput st "style" baseVal true).inputMap key = objGet st.inputMap key
    ∧ objGet (adapterCacheInput st key source true).inputMap key
        = some (mergeOntoBase (objGet st.inputMap "style") (_buildStyleMap source)) := by
  constructor
  · simp only [adapterCacheInput]
    rw [objGet_objSet]
    simp [hk]
  · simp only [adapterCacheInput]
    rw [objGet_objSet]
    simp

/-- Witness for C2: xs cached while the base is empty stays `{x: 2}`
after the base is later supplied. -/
theorem first_write_merge_quirk_witness :
    ("styleXs" : String) ≠ "style"
    ∧ objGet (adapterCacheInput (adapterCacheInput ⟨[], .nil⟩ "styleXs" (.str "x:2") true)
        "style" (.str "a:1") true).inputMap "styleXs"
      = objGet (adapterCacheInput ⟨[], .nil⟩ "styleXs" (.str "x:2") true).inputMap "styleXs" :=
  ⟨by decide,
    (first_write_merge_quirk (adapterCacheInput ⟨[], .nil⟩ "styleXs" (.str "x:2") true)
      (.str "a:1") (.str "x:2") "styleXs" (by decide)).1⟩

/-- C3 counterexample: with two commas, only the first acts as a
separator — `a:1,b:2,c:3` parses to `{a: 1, b: "2,c"}`, not to three
declarations. -/
theorem comma_separator_counterexample :
    _buildStyleMap (.str "a:1,b:2,c:3") = .map [("a","1"),("b","2,c")]
    ∧ _buildStyleMap (.str "a:1,b:2,c:3") ≠ .map [("a","1"),("b","2"),("c","3")] := by
  constructor <;> decide

/-- C3 (amended): only the FIRST comma is converted to a semicolon, so
a comma acts as a declaration separator exactly when it is the only
one: for any string with at most one comma, parsing agrees with
parsing the string with every comma replaced by a semicolon. -/
theorem comma_separator_amended (s : String) (h : s.data.count ',' ≤ 1) :
    _buildStyleMap (.str s) =
      _buildStyleMap (.str (String.mk (s.data.map (fun ch => if ch = ',' then ';' else ch)))) := by
  have h1 : jsReplaceFirst s ',' ';'
      = String.mk (s.data.map (fun ch => if ch = ',' then ';' else ch)) := by
    unfold jsReplaceFirst
    rw [replaceFirstChar_eq_map_of_count_le_one ',' ';' s.data h]
  have h2 : jsReplaceFirst
        (String.mk (s.data.map (fun ch => if ch = ',' then ';' else ch))) ',' ';'
      = String.mk (s.data.map (fun ch => if ch = ',' then ';' else ch)) := by
    unfold jsReplaceFirst
    apply congrArg
    apply replaceFirstChar_of_not_mem
    intro hmem
    rcases List.mem_map.mp hmem with ⟨x, hx, hmap⟩
    by_cases hxc : x = ','
    · simp [hxc] at hmap
    · simp [hxc] at hmap
  simp only [_buildStyleMap]
  rw [h1, h2]

/-- Witness for C3 (amended): the spec's single-comma example works,
and evaluates to the expected map. -/
theorem comma_separator_amended_witness :
    ("color:red,font-size:12px" : String).data.count ',' ≤ 1
    ∧ _buildStyleMap (.str "color:red,font-size:12px") =
        _buildStyleMap (.str (String.mk (("color:red,font-size:12px" : String).data.map
          (fun ch => if ch = ',' then ';' else ch))))
    ∧ _buildStyleMap (.str "color:red,font-size:12px")
        = .map [("color","red"),("font-size","12px")] :=
  ⟨by decide, comma_separator_amended "color:red,font-size:12px" (by decide), by decide⟩

/-- C4 counterexample: `background:url(http://x)` parses with value
`url(http)` truncated at the second colon, not with the entire text
after the first colon. -/
theorem colon_split_counterexample :
    _buildStyleMap (.str "background:url(http://x)") = .map [("background","url(http")]
    ∧ _buildStyleMap (.str "background:url(http://x)")
        ≠ .map [("background","url(http://x)")] := by
  constructor <;> decide

/-- C4 (amended): a fragment is split on every colon and the first two
segments are kept — the key is the text before the first colon and the
value is the text between the first and the second colon (trimmed);
everything from the second colon on is dropped from the value. -/
theorem colon_split_amended (a b cs : List Char)
    (ha : ':' ∉ a) (hb : ':' ∉ b) (hne : b ≠ []) :
    parseFragment (String.mk (a ++ ':' :: (b ++ ':' :: cs))) =
      some (jsTrim (String.mk (removeFirstChar quoteChar a)), jsTrim (String.mk b)) :=
  parseFragment_two_colons a b cs ha hb hne

/-- Witness for C4 (amended): the url example. -/
theorem colon_split_amended_witness :
    (':' ∉ ("background" : String).data)
    ∧ parseFragment (String.mk (("background" : String).data
          ++ ':' :: (("url(http" : String).data ++ ':' :: ("//x)" : String).data))) =
        some (jsTrim (String.mk (removeFirstChar quoteChar ("background" : String).data)),
          jsTrim (String.mk ("url(http" : String).data)) :=
  ⟨by decide,
    colon_split_amended ("background" : String).data ("url(http" : String).data
      ("//x)" : String).data (by decide) (by decide) (by decide)⟩

/-- C5 counterexample: a key holding two quote characters keeps the
second one — only the first `'` is removed. -/
theorem quote_removal_counterexample :
    _buildStyleMap (.str (String.mk [quoteChar, quoteChar, 'a', ':', '1']))
        = .map [(String.mk [quoteChar, 'a'], "1")]
    ∧ _buildStyleMap (.str (String.mk [quoteChar, quoteChar, 'a', ':', '1']))
        ≠ .map [("a","1")] := by
  constructor <;> decide

/-- C5 (amended): for a well-formed single declaration, the resulting
key has the FIRST `'` character removed (not every occurrence) and is
then whitespace-trimmed, and the resulting value is
whitespace-trimmed. -/
theorem quote_removal_amended (a v : List Char)
    (hca : ',' ∉ a) (hcv : ',' ∉ v)
    (hsa : ';' ∉ a) (hsv : ';' ∉ v)
    (ha : ':' ∉ a) (hv : ':' ∉ v) (hne : v ≠ []) :
    _buildStyleMap (.str (String.mk (a ++ ':' :: v))) =
      .map [(jsTrim (String.mk (removeFirstChar quoteChar a)), jsTrim (String.mk v))] :=
  buildStyleMap_single_decl a v hca hcv hsa hsv ha hv hne

/-- Witness for C5 (amended): key `''a` with padding trims to `'a`
(one quote removed, whitespace trimmed), value ` 1` trims to `1`. -/
theorem quote_removal_amended_witness :
    _buildStyleMap (.str (String.mk ([quoteChar, quoteChar, 'a', ' ']
        ++ ':' :: [' ', '1']))) =
      .map [(jsTrim (String.mk (removeFirstChar quoteChar [quoteChar, quoteChar, 'a', ' '])),
        jsTrim (String.mk [' ', '1']))]
    ∧ _buildStyleMap (.str (String.mk ([quoteChar, quoteChar, 'a', ' ']
        ++ ':' :: [' ', '1']))) =
      .map [(String.mk [quoteChar, 'a'], "1")] :=
  ⟨quote_removal_amended [quoteChar, quoteChar, 'a', ' '] [' ', '1']
      (by decide) (by decide) (by decide) (by decide) (by decide) (by decide) (by decide),
    by decide⟩

/-- C6: Permissive parsing — a fragment that parses to nothing (no
colon, or an empty value) is silently dropped from the result; a
fragment without a colon always parses to nothing, as does one whose
first colon ends the text; and parsing is total: every string yields a
map, never an error. -/
theorem permissive_parsing (s frag : String)
    (h1 : ';' ∉ frag.data) (h2 : ',' ∉ frag.data) (h3 : parseFragment frag = none) :
    _buildStyleMap (.str (s ++ ";" ++ frag)) = _buildStyleMap (.str s)
    ∧ (∀ u : String, ':' ∉ u.data → parseFragment u = none)
    ∧ (∀ a : List Char, ':' ∉ a → parseFragment (String.mk (a ++ [':'])) = none)
    ∧ (∀ t : String, ∃ m : StyleMap, _buildStyleMap (.str t) = .map m) := by
  refine ⟨buildStyleMap_append_dropped s frag h1 h2 h3, ?_, ?_, fun t => ⟨_, rfl⟩⟩
  · intro u hu
    unfold parseFragment jsSplit
    rw [splitCharList_of_not_mem _ _ hu]
    rfl
  · intro a ha
    have hsplit : splitCharList ':' (a ++ [':']) = [a, []] := by
      have : a ++ [':'] = a ++ ':' :: [] := rfl
      rw [this, splitCharList_append, splitCharList_of_not_mem _ _ ha]
      rfl
    unfold parseFragment jsSplit
    have hdata : (String.mk (a ++ [':'])).data = a ++ [':'] := rfl
    rw [hdata, hsplit]
    rfl

/-- Witness for C6: the spec's example — `justcolor` has no colon and
is dropped. -/
theorem permissive_parsing_witness :
    (';' ∉ ("justcolor" : String).data)
    ∧ _buildStyleMap (.str ("color:red" ++ ";" ++ "justcolor"))
        = _buildStyleMap (.str "color:red")
    ∧ _buildStyleMap (.str "color:red;justcolor") = .map [("color","red")] :=
  ⟨by decide,
    (permissive_parsing "color:red" "justcolor" (by decide) (by decide) (by decide)).1,
    by decide⟩

/-- C7: Merge precedence — the normalized result is the base map
extended by every key of the parsed map, so the parsed value wins on
shared keys and every other base key is preserved; the spec's example
`normalize("b:2", {a: 1, b: 1})` gives `{a: 1, b: 2}`. -/
theorem merge_precedence (b m : StyleMap) (k : String) (h : (m.map Prod.fst).Nodup) :
    mergeOntoBase (some (.map b)) (.map m) = .map (extendMap b m)
    ∧ objGet (extendMap b m) k =
        (match objGet m k with
         | some v => some v
         | none => objGet b k)
    ∧ mergeOntoBase (some (.map [("a","1"),("b","1")])) (_buildStyleMap (.str "b:2"))
        = .map [("a","1"),("b","2")] :=
  ⟨rfl, objGet_extendMap b m k h, by decide⟩

/-- Witness for C7: the spec's example keys. -/
theorem merge_precedence_witness :
    (([("b","2")] : StyleMap).map Prod.fst).Nodup
    ∧ objGet (extendMap [("a","1"),("b","1")] [("b","2")]) "b" =
        (match objGet ([("b","2")] : StyleMap) "b" with
         | some v => some v
         | none => objGet [("a","1"),("b","1")] "b") :=
  ⟨by decide, (merge_precedence [("a","1"),("b","1")] [("b","2")] "b" (by decide)).2.1⟩

/-- C8 counterexample: a second base input `b:2` after `a:1` leaves
the cached base map `{a: 1, b: 2}` — the key `a` of the first input
survives although it is absent from the second. -/
theorem input_replacement_counterexample :
    objGet (styleBase (styleBase ⟨[], .nil⟩ (.str "a:1")) (.str "b:2")).inputMap "style"
      = some (.map [("a","1"),("b","2")])
    ∧ objGet (styleBase (styleBase ⟨[], .nil⟩ (.str "a:1")) (.str "b:2")).inputMap "style"
      ≠ some (.map [("b","2")]) := by
  constructor <;> decide

/-- C8 (amended): at most one cached entry exists per key (the key
list stays duplicate-free and the stored entry is replaced), but the
replacing entry is the new input merged onto the current base map, so
keys of an earlier base input that are absent from the later one still
survive inside the new cached base map. -/
theorem input_replacement_amended (st : DirectiveState) (key : String) (source : NgStyleValue)
    (h : (st.inputMap.map Prod.fst).Nodup) :
    ((adapterCacheInput st key source true).inputMap.map Prod.fst).Nodup
    ∧ objGet (adapterCacheInput st key source true).inputMap key
        = some (mergeOntoBase (objGet st.inputMap "style") (_buildStyleMap source)) := by
  constructor
  · exact nodup_map_fst_objSet st.inputMap key _ h
  · simp only [adapterCacheInput]
    rw [objGet_objSet]
    simp

/-- Witness for C8 (amended): a second base input on a one-entry
cache. -/
theorem input_replacement_amended_witness :
    (((styleBase ⟨[], .nil⟩ (.str "a:1")).inputMap.map Prod.fst).Nodup)
    ∧ objGet (adapterCacheInput (styleBase ⟨[], .nil⟩ (.str "a:1")) "style" (.str "b:2")
          true).inputMap "style"
        = some (mergeOntoBase (objGet (styleBase ⟨[], .nil⟩ (.str "a:1")).inputMap "style")
            (_buildStyleMap (.str "b:2"))) :=
  ⟨by decide,
    (input_replacement_amended (styleBase ⟨[], .nil⟩ (.str "a:1")) "style" (.str "b:2")
      (by decide)).2⟩

/-- C9: Type preservation for non-string inputs — a map input is used
as-is without parsing, and array and set inputs pass through the
parser and the merge step with their type preserved, including when
cached over any base. -/
theorem type_preservation (m : StyleMap) (xs ys : List String) (b : Option NgStyleValue)
    (st : DirectiveState) (k : String) :
    _buildStyleMap (.map m) = .map m
    ∧ _buildStyleMap (.arr xs) = .arr xs
    ∧ _buildStyleMap (.set ys) = .set ys
    ∧ mergeOntoBase b (.arr xs) = .arr xs
    ∧ mergeOntoBase b (.set ys) = .set ys
    ∧ objGet (adapterCacheInput st k (.arr xs) true).inputMap k = some (.arr xs)
    ∧ objGet (adapterCacheInput st k (.set ys) true).inputMap k = some (.set ys) := by
  refine ⟨rfl, rfl, rfl, rfl, rfl, ?_, ?_⟩ <;>
  · simp only [adapterCacheInput]
    rw [objGet_objSet]
    simp [mergeOntoBase, _buildStyleMap]

/-- C10 counterexample: an element that carries the inline style
attribute `color` (present but without a well-formed declaration)
seeds an EMPTY base map. -/
theorem initial_base_seeding_counterexample :
    objGet (constructorSeed (some "color")).inputMap "style"
      = some (.map ([] : StyleMap)) := by
  decide

/-- C10 (amended): at construction the directive caches the host
element's inline style attribute as the base input, parsed like any
other base input; the initial base map is non-empty whenever the
attribute contains at least one well-formed declaration (the parse is
non-empty). -/
theorem initial_base_seeding_amended (s : String) (m : StyleMap)
    (h1 : _buildStyleMap (.str s) = .map m) (h2 : m ≠ []) :
    objGet (constructorSeed (some s)).inputMap "style" = some (.map m)
    ∧ NgStyleValue.map m ≠ NgStyleValue.map [] := by
  constructor
  · show objGet (adapterCacheInput ⟨[], .nil⟩ "style" (.str s) true).inputMap "style" = _
    simp only [adapterCacheInput]
    rw [objGet_objSet]
    simp [h1, mergeOntoBase, objGet]
  · simpa using h2

/-- Witness for C10 (amended): attribute `color:red` seeds the base
map `{color: red}`. -/
theorem initial_base_seeding_amended_witness :
    _buildStyleMap (.str "color:red") = .map [("color","red")]
    ∧ objGet (constructorSeed (some "color:red")).inputMap "style"
        = some (.map [("color","red")]) :=
  ⟨by decide,
    (initial_base_seeding_amended "color:red" [("color","red")] (by decide) (by decide)).1⟩

end FlexLayout
